import Mathlib

/-!
# Verification of `Source/Core/S2Cell.js`

This file gives a shallow embedding of the S2 cell module: the 64-bit cell
identifier codec (validation, token conversion, level extraction, parent/child
navigation), the Hilbert-curve lookup-table generator, the face/IJ decoder and
the start of the coordinate transform chain, together with theorems checking
the specification's claims against that embedding.

JavaScript `BigInt` values are mathematical integers, so they are embedded as
`ℤ`.  `BigInt` bitwise operators follow infinite two's-complement semantics;
a small prelude (`jsNot`, `jsAnd`, `jsOr`, `jsShiftLeft`, `jsShiftRight`)
defines them on `ℤ` in terms of the kernel-computable `Nat` bitwise
operations.  JavaScript `Number` values only appear in the source at places
where the arithmetic is exact on small integers (child indices, levels, loop
counters), except for one `Number(bigint)` conversion in `getFaceSiTi` whose
rounding behaviour is modelled explicitly (`numberAnd1`).  Thrown exceptions
(`DeveloperError`, `RuntimeError`) are modelled with `Except`.
-/

namespace S2JS

/-- JavaScript `BigInt` bitwise NOT.  In infinite two's complement
`~a = -(a + 1)`, which is the definition used here. -/
def jsNot (a : ℤ) : ℤ := -(a + 1)

/-- JavaScript `BigInt` bitwise AND with infinite two's-complement semantics.
A negative integer `b` has the bit pattern of the complement of `-(b+1) ≥ 0`.
The four sign cases reduce to `Nat` operations:
for `a ≥ 0, b < 0` the result keeps the bits of `a` outside `-(b+1)`,
i.e. `a - (a &&& (-(b+1)))` (subtracting the common bits clears them, since
`a &&& k` is a sub-mask of `a`); for `a, b < 0` De Morgan gives
`-(((-(a+1)) ||| (-(b+1))) + 1)`. -/
def jsAnd (a b : ℤ) : ℤ :=
  if 0 ≤ a then
    if 0 ≤ b then ((a.toNat &&& b.toNat : ℕ) : ℤ)
    else ((a.toNat - (a.toNat &&& (-(b + 1)).toNat) : ℕ) : ℤ)
  else
    if 0 ≤ b then ((b.toNat - (b.toNat &&& (-(a + 1)).toNat) : ℕ) : ℤ)
    else -((((-(a + 1)).toNat ||| (-(b + 1)).toNat : ℕ) : ℤ) + 1)

/-- JavaScript `BigInt` bitwise OR, by De Morgan from `jsAnd` and `jsNot`;
this is exact for infinite two's-complement bit patterns. -/
def jsOr (a b : ℤ) : ℤ := jsNot (jsAnd (jsNot a) (jsNot b))

/-- JavaScript `BigInt` left shift `a << n` (for a non-negative shift count):
multiplication by `2 ^ n`. -/
def jsShiftLeft (a : ℤ) (n : ℕ) : ℤ := a * 2 ^ n

/-- JavaScript `BigInt` right shift `a >> n`: an arithmetic shift, i.e. floor
division by `2 ^ n`, implemented on the two constructors of `ℤ` so that it
computes by kernel reduction. -/
def jsShiftRight (a : ℤ) (n : ℕ) : ℤ :=
  match a with
  | .ofNat m => .ofNat (m >>> n)
  | .negSucc m => .negSucc (m >>> n)

end S2JS

open S2JS

/-- Errors thrown by the module.  `RuntimeError` is thrown for a missing host
capability, `DeveloperError` (with its message) for precondition violations.
The specification's taxonomy maps onto the messages: "child index must be in
the range [0-3]." is its InvalidArgument, "cell ID is invalid." its
InvalidIdentifier, and the two hierarchy messages its
InvalidHierarchyOperation. -/
inductive S2Error where
  | runtimeError (msg : String)
  | developerError (msg : String)
deriving DecidableEq

deriving instance DecidableEq for Except

/-- The maximum level supported within an S2 cell ID (`S2MaxLevel`). -/
def S2MaxLevel : ℕ := 30

/-- The number of bits in an S2 cell ID used for specifying the position along
the Hilbert curve (`S2PositionBits = 2 * S2MaxLevel + 1 = 61`). -/
def S2PositionBits : ℕ := 2 * S2MaxLevel + 1

/-- The number of bits per I and J in the lookup tables (`S2LookupBits`). -/
def S2LookupBits : ℕ := 4

/-- Mask for the swap orientation bit (`S2SwapMask`). -/
def S2SwapMask : ℕ := 1

/-- Mask for the invert orientation bit (`S2InvertMask`). -/
def S2InvertMask : ℕ := 2

/-- The source's `S2PosToIJ` table.  Note that the generator in the source
never reads this table (see `generateLookupCellGo`); it is included here
because it is declared in the source. -/
def S2PosToIJ : List (List ℕ) :=
  [[0, 1, 3, 2], [0, 2, 3, 1], [3, 2, 0, 1], [3, 1, 0, 2]]

/-- Orientation update masks for the four sub-cells (`S2PosToOrientationMask`):
`[S2SwapMask, 0, 0, S2SwapMask | S2InvertMask]`. -/
def S2PosToOrientationMask : List ℕ := [S2SwapMask, 0, 0, S2SwapMask ||| S2InvertMask]

/-- The helper `lsb(cellId) = cellId & (~cellId + 1n)` from the source. -/
def lsb (cellId : ℤ) : ℤ := jsAnd cellId (jsNot cellId + 1)

/-- Models `FeatureDetection.supportsBigInt()`: the embedding targets a host
environment that supports `BigInt`. -/
def supportsBigInt : Bool := true

namespace S2Cell

/-- `S2Cell.isValidId`.  The JavaScript boolean test `!(x)` on a `BigInt` is
true exactly when the value is `0n`. -/
def isValidId (cellId : ℤ) : Bool :=
  if cellId ≤ 0 then false
  else if 5 < jsShiftRight cellId S2PositionBits then false
  else if jsAnd (lsb cellId) 0x1555555555555555 = 0 then false
  else true

/-- Value of a hexadecimal digit character.  `BigInt("0x" + token)` throws a
`SyntaxError` on any non-hex character; every caller in the module passes
strings of hex digits only, so the junk value 0 for other characters is never
produced on the source's domain. -/
def hexCharVal (c : Char) : ℕ :=
  if '0' ≤ c ∧ c ≤ '9' then c.toNat - 48
  else if 'a' ≤ c ∧ c ≤ 'f' then c.toNat - 87
  else if 'A' ≤ c ∧ c ≤ 'F' then c.toNat - 55
  else 0

/-- Value of a list of hexadecimal digit characters, most significant first. -/
def hexVal (cs : List Char) : ℕ := cs.foldl (fun acc c => 16 * acc + hexCharVal c) 0

/-- `S2Cell.getIdFromToken`: `"X"` denotes 0; otherwise the token is parsed as
hex after being right-padded with `"0".repeat(16 - token.length)` to 16
digits.  (For tokens longer than 16 characters the source's `repeat` throws a
`RangeError`; no caller and no claim reaches that case, and `Nat`
subtraction makes the padding empty there.) -/
def getIdFromToken (token : String) : ℤ :=
  if token = "X" then 0
  else (hexVal (token.data ++ List.replicate (16 - token.length) '0') : ℤ)

/-- The effect of `s.replace(/0*$/, "")`: the first position where `0*$`
matches is the start of the maximal run of trailing `'0'` characters, so the
replacement strips all trailing zero digits. -/
def stripTrailingZeros (s : String) : String :=
  String.mk ((s.data.reverse.dropWhile (fun c => c = '0')).reverse)

/-- `S2Cell.getTokenFromId`: 0 maps to `"X"`; otherwise
`cellId.toString(16)` (lowercase hex, no leading zeros; `Nat.toDigits 16`
produces exactly this for a positive value) with trailing zero digits
stripped.  Negative ids do not occur on the source's domain. -/
def getTokenFromId (cellId : ℤ) : String :=
  if cellId = 0 then "X"
  else stripTrailingZeros (String.mk (Nat.toDigits 16 cellId.toNat))

/-- The trailing-zero-counting loop of `S2Cell.getLevel`.  The source loop
runs until the shifted id is zero or odd; a fuel argument of 64 covers every
id accepted by the validity check (all are below `2 ^ 63`), so the fuel never
runs out on the source's domain. -/
def lsbPositionLoop : ℕ → ℕ → ℕ → ℕ
  | 0, _, acc => acc
  | fuel + 1, n, acc =>
    if n = 0 then acc
    else if n &&& 1 = 1 then acc
    else lsbPositionLoop fuel (n >>> 1) (acc + 1)

/-- `S2Cell.getLevel`: requires a valid id (the debug check throws a
`DeveloperError` with no message otherwise), counts the position of the lowest
set bit and returns `S2MaxLevel - (lsbPosition >> 1)`. -/
def getLevel (cellId : ℤ) : Except S2Error ℤ :=
  if ¬ isValidId cellId then .error (.developerError "")
  else .ok ((S2MaxLevel : ℤ) - (lsbPositionLoop 64 cellId.toNat 0 >>> 1 : ℕ))

end S2Cell

/-- The cell object: a validated 64-bit id together with its derived level. -/
structure S2Cell where
  cellId : ℤ
  level : ℤ
deriving DecidableEq

namespace S2Cell

/-- The `S2Cell(cellId)` constructor: fails with a `RuntimeError` when the
host lacks `BigInt`, with a `DeveloperError` when the id is invalid, and
otherwise stores the id and its level.  (The `defined(cellId)` null check is
subsumed by typing.) -/
def construct (cellId : ℤ) : Except S2Error S2Cell :=
  if ¬ supportsBigInt then .error (.runtimeError "S2 required BigInt support")
  else if ¬ isValidId cellId then .error (.developerError "cell ID is invalid.")
  else do
    let lvl ← getLevel cellId
    pure { cellId := cellId, level := lvl }

/-- The id computed by `getChild`:
`cellId + (2 * index + 1 - 4) * newLsb` with `newLsb = lsb(cellId) >> 2n`
(the source's local variables, hoisted to a definition). -/
def childCellId (cellId index : ℤ) : ℤ :=
  cellId + (2 * index + 1 - 4) * jsShiftRight (lsb cellId) 2

/-- The id computed by `getParent`:
`(cellId & (~newLsb + 1n)) | newLsb` with `newLsb = lsb(cellId) << 2n`
(the source's local variables, hoisted to a definition). -/
def parentCellId (cellId : ℤ) : ℤ :=
  jsOr (jsAnd cellId (jsNot (jsShiftLeft (lsb cellId) 2) + 1)) (jsShiftLeft (lsb cellId) 2)

/-- `S2Cell.prototype.getChild`: checks the index range, then that the cell is
not a leaf, then builds the child id and re-runs the constructor on it. -/
def getChild (cell : S2Cell) (index : ℤ) : Except S2Error S2Cell :=
  if index < 0 ∨ 3 < index then
    .error (.developerError "child index must be in the range [0-3].")
  else if cell.level = 30 then
    .error (.developerError "cannot get child of leaf cell.")
  else
    construct (childCellId cell.cellId index)

/-- `S2Cell.prototype.getParent`: checks that the cell is not a root, then
builds the parent id and re-runs the constructor on it. -/
def getParent (cell : S2Cell) : Except S2Error S2Cell :=
  if cell.level = 0 then
    .error (.developerError "cannot get parent of root cell.")
  else
    construct (parentCellId cell.cellId)

end S2Cell

/-- The module-level mutable pair `(S2LookupPositions, S2LookupIJ)`.
JavaScript arrays written at sparse indices behave as maps from indices to
values, so each table is modelled as `ℕ → Option ℕ` (with `none` for a hole). -/
structure LookupState where
  lookupPositions : ℕ → Option ℕ
  lookupIJ : ℕ → Option ℕ

/-- The assignment `table[key] = value` on a sparse JavaScript array. -/
def arraySet (t : ℕ → Option ℕ) (key value : ℕ) : ℕ → Option ℕ :=
  fun n => if n = key then some value else t n

/-- Both lookup arrays start empty. -/
def initialLookupState : LookupState :=
  { lookupPositions := fun _ => none, lookupIJ := fun _ => none }

/-- The recursion of `generateLookupCell`, indexed by the remaining depth
`S2LookupBits - level` (the source counts `level` up to `S2LookupBits` and
tests `level === S2LookupBits`; on every reachable call `level ≤ S2LookupBits`,
so counting the remaining depth down is the same recursion).

In the source, `var r = S2PosToOrientationMask[orientation]` selects an entry
of the *flat number array* `[1, 0, 0, 3]`, so `r` is a `Number` and the
property reads `r[0]`, …, `r[3]` all evaluate to `undefined`; JavaScript then
coerces `undefined >> 1` and `undefined & 1` to `0`.  Every child offset is
therefore `0`, which is written below as the literal `i + 0` / `j + 0`.
(The two-dimensional table `S2PosToIJ` is never read.)  The orientation
arguments `orientation ^ S2PosToOrientationMask[c]` are taken from the same
flat array, as in the source. -/
def generateLookupCellGo : ℕ → ℕ → ℕ → ℕ → ℕ → ℕ → LookupState → LookupState
  | 0, i, j, originalOrientation, position, orientation, s =>
    let ij := (i <<< S2LookupBits) + j
    { lookupPositions :=
        arraySet s.lookupPositions ((ij <<< 2) + originalOrientation)
          ((position <<< 2) + orientation)
      lookupIJ :=
        arraySet s.lookupIJ ((position <<< 2) + originalOrientation)
          ((ij <<< 2) + orientation) }
  | n + 1, i, j, originalOrientation, position, orientation, s =>
    let i := i <<< 1
    let j := j <<< 1
    let position := position <<< 2
    let s := generateLookupCellGo n (i + 0) (j + 0) originalOrientation
      (position + 0) (orientation ^^^ S2PosToOrientationMask.getD 0 0) s
    let s := generateLookupCellGo n (i + 0) (j + 0) originalOrientation
      (position + 1) (orientation ^^^ S2PosToOrientationMask.getD 1 0) s
    let s := generateLookupCellGo n (i + 0) (j + 0) originalOrientation
      (position + 2) (orientation ^^^ S2PosToOrientationMask.getD 2 0) s
    generateLookupCellGo n (i + 0) (j + 0) originalOrientation
      (position + 3) (orientation ^^^ S2PosToOrientationMask.getD 3 0) s

/-- `generateLookupCell(level, i, j, originalOrientation, position,
orientation)` acting on the table state. -/
def generateLookupCell (level i j originalOrientation position orientation : ℕ)
    (s : LookupState) : LookupState :=
  generateLookupCellGo (S2LookupBits - level) i j originalOrientation position orientation s

/-- `generateLookupTable()`: four top-level recursions, one per starting
orientation. -/
def generateLookupTable (s : LookupState) : LookupState :=
  let s := generateLookupCell 0 0 0 0 0 0 s
  let s := generateLookupCell 0 0 0 S2SwapMask 0 S2SwapMask s
  let s := generateLookupCell 0 0 0 S2InvertMask 0 S2InvertMask s
  generateLookupCell 0 0 0 (S2SwapMask ||| S2InvertMask) 0 (S2SwapMask ||| S2InvertMask) s

/-- The lazily built tables as read by `getFaceIJOrientation`: on first use
the empty state is populated by `generateLookupTable` (the source guards the
build with `S2LookupPositions.length === 0`). -/
def builtLookupState : LookupState := generateLookupTable initialLookupState

/-- `Number(x) & 1` for a non-negative `BigInt` value `x`.  `Number(x)` is the
IEEE double nearest to `x`; for `x < 2 ^ 53` it is exact, and for `x ≥ 2 ^ 53`
the rounding unit is at least 2, so the resulting float (an even integer, and
still even after the `ToInt32` wrap modulo `2 ^ 32`) always has lowest bit 0. -/
def numberAnd1 (x : ℤ) : ℕ :=
  if x.toNat < 2 ^ 53 then x.toNat % 2 else 0

/-- `getFaceIJOrientation(cellId)` as called with the `orientation` argument
omitted (`getFaceSiTi` never requests the orientation output, so the final
`if (orientation)` block is dead there): returns `(i, j, face)`.

`Number(...)` conversions inside the loop are exact: the mask
`(1 << (2 * nBits - 1)) << 2` is a single bit (32 for the ragged top group,
512 otherwise), so the masked value is at most 512.  Table reads
`S2LookupIJ[bits]` always hit a populated index (the generator populates every
index 0–1023 of `S2LookupIJ`, and `bits < 1024` in the loop), so the `getD`
default is never consulted on the source's domain.  Negative ids never reach
this internal function. -/
def getFaceIJOrientation (cellId : ℤ) : ℕ × ℕ × ℕ :=
  let face := (jsShiftRight cellId S2PositionBits).toNat
  let step := fun (st : ℕ × ℕ × ℕ) (k : ℕ) =>
    let (i, j, bits) := st
    let nBits := if k = 7 then S2MaxLevel - 7 * S2LookupBits else S2LookupBits
    let bits := bits +
      ((jsShiftRight cellId (k * 2 * S2LookupBits + 1)).toNat &&&
        ((1 <<< (2 * nBits - 1)) <<< 2))
    let bits := bits + (builtLookupState.lookupIJ bits).getD 0
    let i := i + ((bits >>> (S2LookupBits + 2)) <<< (k * S2LookupBits))
    let j := j + (((bits >>> 2) &&& ((1 <<< S2LookupBits) - 1)) <<< (k * S2LookupBits))
    let bits := bits &&& (S2SwapMask ||| S2InvertMask)
    (i, j, bits)
  let r := [7, 6, 5, 4, 3, 2, 1, 0].foldl step (0, 0, face &&& S2SwapMask)
  (r.1, r.2.1, face)

/-- `getFaceSiTi(cellId)`: decodes `(i, j, face)` and applies the center
correction `delta`.  The source's condition is
`i ^ (Number(cellId >> 2n) & 1)` used as a truth value, i.e. `delta = 2`
exactly when that XOR is non-zero.  The call to `S2Cell.getLevel` can throw
on an invalid id, hence the `Except`. -/
def getFaceSiTi (cellId : ℤ) : Except S2Error (ℕ × ℕ × ℕ) := do
  let d := getFaceIJOrientation cellId
  let i := d.1
  let j := d.2.1
  let face := d.2.2
  let lvl ← S2Cell.getLevel cellId
  let delta : ℕ :=
    if lvl = 30 then 1
    else if i ^^^ numberAnd1 (jsShiftRight cellId 2) ≠ 0 then 2
    else 0
  pure (face, 2 * i + delta, 2 * j + delta)

/-- A model of JavaScript `new Cartesian3(x, y, z)` restricted to what
`FaceUVtoXYZ` needs: an exact triple of coordinates.  Only negation and the
literals `±1` are applied to the inputs, and IEEE negation is exact, so the
rational model is faithful. -/
def Cartesian3 (x y z : ℚ) : ℚ × ℚ × ℚ := (x, y, z)

/-- `FaceUVtoXYZ(face, u, v)`: the six fixed per-face formulas; faces other
than 0–4 take the `default` branch of the source's `switch`. -/
def FaceUVtoXYZ (face : ℕ) (u v : ℚ) : ℚ × ℚ × ℚ :=
  match face with
  | 0 => Cartesian3 1 u v
  | 1 => Cartesian3 (-u) 1 v
  | 2 => Cartesian3 (-u) (-v) 1
  | 3 => Cartesian3 (-1) (-v) (-u)
  | 4 => Cartesian3 v (-1) (-u)
  | _ => Cartesian3 v u (-1)

/-! ### Bit-arithmetic infrastructure

The navigation and validity functions all manipulate an id of the shape
`2 ^ p * q` with `q` odd (`p` the position of the lowest set bit).  The
following `Nat` lemmas characterise the bitwise operations of the source on
numbers of that shape. -/

section BitLemmas

/-- Bits of `2 ^ p * q`: zero below position `p`, the bits of `q` above. -/
theorem testBit_two_pow_mul (p q j : ℕ) :
    (2 ^ p * q).testBit j = if j < p then false else q.testBit (j - p) := by
  have h := Nat.testBit_mul_pow_two_add q (Nat.two_pow_pos p) j
  simpa using h

/-- Bits of `2 ^ p * q - 1` for odd `q`: ones below position `p`, the bits of
`q - 1` above. -/
theorem testBit_two_pow_mul_sub_one (p q j : ℕ) (hq : 0 < q) :
    (2 ^ p * q - 1).testBit j = if j < p then true else (q - 1).testBit (j - p) := by
  have hsplit : 2 ^ p * q - 1 = 2 ^ p * (q - 1) + (2 ^ p - 1) := by
    have h1 : 2 ^ p * (q - 1) + 2 ^ p = 2 ^ p * q := by
      rw [← Nat.mul_succ]
      congr 1
      omega
    have h2 : 0 < 2 ^ p := Nat.two_pow_pos p
    omega
  rw [hsplit, Nat.testBit_mul_pow_two_add (q - 1)
    (by exact Nat.sub_lt (Nat.two_pow_pos p) Nat.one_pos) j]
  by_cases h : j < p
  · simp [h, Nat.testBit_two_pow_sub_one]
  · simp [h]

/-- For odd `q`, the bits of `q - 1` agree with those of `q` above position 0. -/
theorem testBit_sub_one_of_odd {q : ℕ} (hq : q % 2 = 1) (j : ℕ) (hj : 1 ≤ j) :
    (q - 1).testBit j = q.testBit j := by
  obtain ⟨c, hc⟩ : ∃ c, q = 2 * c + 1 := ⟨q / 2, by omega⟩
  subst hc
  have h1 : 2 * c + 1 - 1 = 2 ^ 1 * c + 0 := by norm_num
  have h2 : 2 * c + 1 = 2 ^ 1 * c + 1 := by norm_num
  rw [h1, h2, Nat.testBit_mul_pow_two_add c (by norm_num) j,
    Nat.testBit_mul_pow_two_add c (by norm_num) j]
  have : ¬ j < 1 := by omega
  simp [this]

/-- `m & (m - 1)` clears the lowest set bit: for `m = 2 ^ p * q` with `q` odd,
the result is `2 ^ p * (q - 1)`. -/
theorem land_sub_one_of_odd (p q : ℕ) (hq : q % 2 = 1) :
    (2 ^ p * q) &&& (2 ^ p * q - 1) = 2 ^ p * (q - 1) := by
  have hq0 : 0 < q := by omega
  apply Nat.eq_of_testBit_eq
  intro j
  rw [Nat.testBit_land, testBit_two_pow_mul, testBit_two_pow_mul_sub_one p q j hq0,
    testBit_two_pow_mul]
  by_cases h : j < p
  · simp [h]
  · simp only [h, if_false]
    by_cases h0 : j - p = 0
    · rw [h0]
      have hq1 : q.testBit 0 = true := by
        rw [Nat.testBit_zero]
        simp [hq]
      have hq2 : (q - 1).testBit 0 = false := by
        rw [Nat.testBit_zero]
        have : (q - 1) % 2 = 0 := by omega
        simp [this]
      simp [hq1, hq2]
    · rw [testBit_sub_one_of_odd hq (j - p) (by omega)]
      cases q.testBit (j - p) <;> simp

/-- The classic lowest-set-bit extraction `m - (m & (m - 1))` on `ℕ`. -/
theorem sub_land_sub_one (p q : ℕ) (hq : q % 2 = 1) :
    2 ^ p * q - ((2 ^ p * q) &&& (2 ^ p * q - 1)) = 2 ^ p := by
  have h1 : 2 ^ p * (q - 1) + 2 ^ p = 2 ^ p * q := by
    rw [← Nat.mul_succ]
    congr 1
    omega
  rw [land_sub_one_of_odd p q hq, ← h1, Nat.add_sub_cancel_left]

/-- Bitwise OR distributes over multiplication by a power of two. -/
theorem lor_two_pow_mul (p a b : ℕ) :
    (2 ^ p * a) ||| (2 ^ p * b) = 2 ^ p * (a ||| b) := by
  apply Nat.eq_of_testBit_eq
  intro j
  rw [Nat.testBit_lor, testBit_two_pow_mul, testBit_two_pow_mul, testBit_two_pow_mul,
    Nat.testBit_lor]
  by_cases h : j < p <;> simp [h]

/-- Setting bit 0 with OR: adds 1 to an even number, fixes an odd number. -/
theorem lor_one (a : ℕ) : a ||| 1 = if a % 2 = 1 then a else a + 1 := by
  by_cases h : a % 2 = 1
  · simp only [h, if_true]
    apply Nat.eq_of_testBit_eq
    intro j
    rw [Nat.testBit_lor]
    rcases Nat.eq_zero_or_pos j with hj | hj
    · subst hj
      rw [Nat.testBit_zero, Nat.testBit_zero]
      simp [h]
    · have h1 : (1 : ℕ).testBit j = false := by
        have : (1 : ℕ) = 2 ^ 0 := by norm_num
        rw [this, Nat.testBit_two_pow]
        simp
        omega
      simp [h1]
  · simp only [h, if_false]
    obtain ⟨c, hc⟩ : ∃ c, a = 2 * c := ⟨a / 2, by omega⟩
    subst hc
    apply Nat.eq_of_testBit_eq
    intro j
    rw [Nat.testBit_lor]
    have h2 : 2 * c = 2 ^ 1 * c + 0 := by norm_num
    have h3 : 2 * c + 1 = 2 ^ 1 * c + 1 := by norm_num
    rw [h3, h2, Nat.testBit_mul_pow_two_add c (by norm_num) j,
      Nat.testBit_mul_pow_two_add c (by norm_num) j]
    rcases Nat.eq_zero_or_pos j with hj | hj
    · subst hj
      simp
    · have hj1 : ¬ j < 1 := by omega
      have h1 : (1 : ℕ).testBit j = false := by
        have : (1 : ℕ) = 2 ^ 0 := by norm_num
        rw [this, Nat.testBit_two_pow]
        simp
        omega
      simp [hj1, h1]

end BitLemmas

section IntBridges

/-- `jsAnd` on two non-negative integers is `Nat.land`. -/
theorem jsAnd_natCast (a b : ℕ) : jsAnd (a : ℤ) (b : ℤ) = ((a &&& b : ℕ) : ℤ) := by
  unfold jsAnd
  rw [if_pos (by positivity), if_pos (by positivity)]
  simp

/-- `jsOr` on two non-negative integers is `Nat.lor`. -/
theorem jsOr_natCast (a b : ℕ) : jsOr (a : ℤ) (b : ℤ) = ((a ||| b : ℕ) : ℤ) := by
  unfold jsOr jsNot jsAnd
  have h1 : ¬ (0:ℤ) ≤ -((a:ℤ) + 1) := by omega
  have h2 : ¬ (0:ℤ) ≤ -((b:ℤ) + 1) := by omega
  rw [if_neg h1, if_neg h2]
  have h3 : (-(-((a:ℤ) + 1) + 1)).toNat = a := by omega
  have h4 : (-(-((b:ℤ) + 1) + 1)).toNat = b := by omega
  rw [h3, h4]
  ring

/-- `jsAnd` of a non-negative integer with the negation of a positive one:
`m & (-k)` keeps the bits of `m` outside `k - 1`. -/
theorem jsAnd_neg_natCast (m k : ℕ) (hk : 0 < k) :
    jsAnd (m : ℤ) (-(k : ℤ)) = ((m - (m &&& (k - 1)) : ℕ) : ℤ) := by
  unfold jsAnd
  have h1 : (0:ℤ) ≤ (m:ℤ) := by positivity
  have h2 : ¬ (0:ℤ) ≤ -(k:ℤ) := by omega
  rw [if_pos h1, if_neg h2]
  have h3 : ((m:ℤ)).toNat = m := Int.toNat_natCast m
  have h4 : (-(-(k:ℤ) + 1)).toNat = k - 1 := by omega
  rw [h3, h4]

/-- `~a + 1 = -a` in infinite two's complement. -/
theorem jsNot_add_one (a : ℤ) : jsNot a + 1 = -a := by
  unfold jsNot
  ring

/-- `jsShiftRight` on a non-negative integer is `Nat` division by `2 ^ n`. -/
theorem jsShiftRight_natCast (m n : ℕ) :
    jsShiftRight (m : ℤ) n = ((m / 2 ^ n : ℕ) : ℤ) := by
  rw [← Nat.shiftRight_eq_div_pow]
  rfl

/-- The lowest set bit of `2 ^ p * q` (`q` odd) is `2 ^ p`. -/
theorem lsb_of_shape (p q : ℕ) (hq : q % 2 = 1) :
    lsb ((2 ^ p * q : ℕ) : ℤ) = ((2 ^ p : ℕ) : ℤ) := by
  unfold lsb
  rw [jsNot_add_one]
  have hpos : 0 < 2 ^ p * q := by
    have := Nat.two_pow_pos p
    have : 0 < q := by omega
    positivity
  rw [jsAnd_neg_natCast _ _ hpos, sub_land_sub_one p q hq]

end IntBridges

/-- Structural shape of a valid id: `id = 2 ^ (2 * k) * q` with `q` odd
(the lowest set bit sits at the even position `2 * k`, marking level
`30 - k`), and the face bits are at most 5 (`id < 6 * 2 ^ 61`). -/
def ValidShape (id : ℤ) (k q : ℕ) : Prop :=
  id = ((2 ^ (2 * k) * q : ℕ) : ℤ) ∧ q % 2 = 1 ∧ k ≤ 30 ∧ 2 ^ (2 * k) * q < 6 * 2 ^ 61

/-- Bits of the level-marker mask `0x1555555555555555` below position 61:
set exactly at the even positions. -/
theorem mask_testBit_lt (p : ℕ) (hp : p < 61) :
    (0x1555555555555555 : ℕ).testBit p = decide (p % 2 = 0) := by
  revert hp
  revert p
  decide

/-- The mask is below `2 ^ 61`, so its bits at position 61 and above are 0. -/
theorem mask_testBit_ge (p : ℕ) (hp : 61 ≤ p) :
    (0x1555555555555555 : ℕ).testBit p = false := by
  apply Nat.testBit_lt_two_pow
  calc (0x1555555555555555 : ℕ) < 2 ^ 61 := by norm_num
  _ ≤ 2 ^ p := Nat.pow_le_pow_right (by norm_num) hp

/-- `S2Cell.isValidId` holds exactly for ids of the structural shape: positive,
face bits at most 5, and lowest set bit at an even position at most 60. -/
theorem isValidId_iff (cellId : ℤ) :
    S2Cell.isValidId cellId = true ↔ ∃ k q, ValidShape cellId k q := by
  unfold S2Cell.isValidId
  constructor
  · intro h
    split_ifs at h with h1 h2 h3
    have hm : cellId = ((cellId.toNat : ℕ) : ℤ) := (Int.toNat_of_nonneg (by omega)).symm
    set m := cellId.toNat with hmdef
    have hm0 : m ≠ 0 := by omega
    obtain ⟨p, q, hqodd, hpq⟩ := Nat.exists_eq_two_pow_mul_odd hm0
    have hq : q % 2 = 1 := Nat.odd_iff.1 hqodd
    have hface : m < 6 * 2 ^ 61 := by
      rw [hm, jsShiftRight_natCast] at h2
      have : m / 2 ^ S2PositionBits ≤ 5 := by omega
      have h61 : S2PositionBits = 61 := rfl
      rw [h61] at this
      omega
    have hlsb : lsb cellId = ((2 ^ p : ℕ) : ℤ) := by
      rw [hm, hpq]
      exact lsb_of_shape p q hq
    have hmaskcast : (0x1555555555555555 : ℤ) = ((0x1555555555555555 : ℕ) : ℤ) := by norm_num
    rw [hlsb, hmaskcast, jsAnd_natCast] at h3
    have hbit : (0x1555555555555555 : ℕ).testBit p = true := by
      by_contra hb
      apply h3
      have hb' : (0x1555555555555555 : ℕ).testBit p = false := by
        cases hx : (0x1555555555555555 : ℕ).testBit p
        · rfl
        · exact absurd hx hb
      rw [Nat.two_pow_and, hb']
      simp
    have hplt : p < 61 := by
      by_contra hge
      rw [mask_testBit_ge p (by omega)] at hbit
      exact Bool.false_ne_true hbit
    rw [mask_testBit_lt p hplt] at hbit
    have hpeven : p % 2 = 0 := by
      have := of_decide_eq_true hbit
      exact this
    refine ⟨p / 2, q, ?_, hq, by omega, ?_⟩
    · have hp2 : 2 * (p / 2) = p := by omega
      rw [hm, hpq, hp2]
    · have hp2 : 2 * (p / 2) = p := by omega
      rw [hp2, ← hpq]
      exact hface
  · rintro ⟨k, q, hid, hq, hk, hbound⟩
    have hq0 : 0 < q := by omega
    have hN0 : 0 < 2 ^ (2 * k) * q := by positivity
    have hpos : ¬ cellId ≤ 0 := by
      rw [hid]
      have : (0:ℤ) < ((2 ^ (2 * k) * q : ℕ) : ℤ) := by exact_mod_cast hN0
      omega
    rw [if_neg hpos]
    have hshift : ¬ 5 < jsShiftRight cellId S2PositionBits := by
      rw [hid, jsShiftRight_natCast]
      have h61 : S2PositionBits = 61 := rfl
      rw [h61]
      have hdiv : 2 ^ (2 * k) * q / 2 ^ 61 < 6 := by
        rw [Nat.div_lt_iff_lt_mul (show 0 < 2 ^ 61 by positivity)]
        omega
      have hcast : ((2 ^ (2 * k) * q / 2 ^ 61 : ℕ) : ℤ) ≤ 5 := by
        exact_mod_cast Nat.lt_succ_iff.mp hdiv
      omega
    rw [if_neg hshift]
    have hmask : ¬ jsAnd (lsb cellId) 0x1555555555555555 = 0 := by
      rw [hid, lsb_of_shape _ _ hq]
      have hmask' : ((0x1555555555555555 : ℤ)) = ((0x1555555555555555 : ℕ) : ℤ) := by norm_num
      rw [hmask', jsAnd_natCast, Nat.two_pow_and, mask_testBit_lt (2 * k) (by omega)]
      have : (2 * k) % 2 = 0 := by omega
      simp [this]
    rw [if_neg hmask]

/-- The trailing-zero loop on `2 ^ p * q` with `q` odd returns `acc + p`
whenever the fuel exceeds `p`. -/
theorem lsbPositionLoop_spec (fuel : ℕ) :
    ∀ p q acc, q % 2 = 1 → p < fuel →
      S2Cell.lsbPositionLoop fuel (2 ^ p * q) acc = acc + p := by
  induction fuel with
  | zero =>
    intro p q acc _ hp
    omega
  | succ fuel ih =>
    intro p q acc hq hp
    cases p with
    | zero =>
      simp only [pow_zero, one_mul, S2Cell.lsbPositionLoop]
      rw [if_neg (by omega), Nat.and_one_is_mod, if_pos hq]
      omega
    | succ p =>
      have hsplit : 2 ^ (p + 1) * q = 2 * (2 ^ p * q) := by ring
      simp only [S2Cell.lsbPositionLoop]
      have hq0 : 0 < q := by omega
      have hpos : 0 < 2 ^ (p + 1) * q := by positivity
      rw [if_neg (by omega), Nat.and_one_is_mod]
      have heven : 2 ^ (p + 1) * q % 2 = 0 := by
        rw [hsplit]
        omega
      rw [if_neg (by omega)]
      have hshift : (2 ^ (p + 1) * q) >>> 1 = 2 ^ p * q := by
        rw [Nat.shiftRight_eq_div_pow, hsplit, pow_one]
        omega
      rw [hshift, ih p q (acc + 1) hq (by omega)]
      omega

/-- `S2Cell.getLevel` on an id of shape `(k, q)` returns level `30 - k`. -/
theorem getLevel_of_shape {id : ℤ} {k q : ℕ} (h : ValidShape id k q) :
    S2Cell.getLevel id = .ok (30 - (k : ℤ)) := by
  obtain ⟨hid, hq, hk, hb⟩ := h
  have hvalid : S2Cell.isValidId id = true := (isValidId_iff id).2 ⟨k, q, hid, hq, hk, hb⟩
  unfold S2Cell.getLevel
  rw [if_neg (by simp [hvalid])]
  have htn : id.toNat = 2 ^ (2 * k) * q := by
    rw [hid]
    exact Int.toNat_natCast _
  rw [htn, lsbPositionLoop_spec 64 (2 * k) q 0 hq (by omega)]
  have hsh : (0 + 2 * k) >>> 1 = k := by
    rw [Nat.shiftRight_eq_div_pow, pow_one]
    omega
  rw [hsh]
  norm_num [S2MaxLevel]

/-- `S2Cell.construct` on an id of shape `(k, q)` yields the cell
`⟨id, 30 - k⟩`. -/
theorem construct_of_shape {id : ℤ} {k q : ℕ} (h : ValidShape id k q) :
    S2Cell.construct id = .ok ⟨id, 30 - (k : ℤ)⟩ := by
  have hvalid : S2Cell.isValidId id = true := (isValidId_iff id).2 ⟨k, q, h⟩
  unfold S2Cell.construct
  rw [if_neg (by simp [supportsBigInt]), if_neg (by simp [hvalid])]
  rw [getLevel_of_shape h]
  rfl

/-- Inversion for `S2Cell.construct`: a successfully constructed cell stores
the given id, which has a valid shape, and the derived level. -/
theorem construct_ok_elim {id : ℤ} {c : S2Cell} (h : S2Cell.construct id = .ok c) :
    ∃ k q, ValidShape id k q ∧ c = ⟨id, 30 - (k : ℤ)⟩ := by
  by_cases hv : S2Cell.isValidId id = true
  · obtain ⟨k, q, hs⟩ := (isValidId_iff id).1 hv
    refine ⟨k, q, hs, ?_⟩
    rw [construct_of_shape hs] at h
    exact (Except.ok.inj h).symm
  · exfalso
    unfold S2Cell.construct at h
    rw [if_neg (by simp [supportsBigInt]), if_pos (by simp [hv])] at h
    exact Except.noConfusion h

/-- Factoring the face bound `6 * 2 ^ 61` by a power of two below it. -/
theorem six_two_pow_factor (e : ℕ) (he : e ≤ 61) :
    6 * 2 ^ 61 = 2 ^ e * (6 * 2 ^ (61 - e)) := by
  have h : 2 ^ e * 2 ^ (61 - e) = 2 ^ 61 := by
    rw [← pow_add]
    congr 1
    omega
  calc 6 * 2 ^ 61 = 6 * (2 ^ e * 2 ^ (61 - e)) := by rw [h]
  _ = 2 ^ e * (6 * 2 ^ (61 - e)) := by ring

/-- The id produced by `getChild` on a non-leaf id of shape `(k, q)` with
child index `i ∈ [0, 3]` has shape `(k - 1, 4q + 2i - 3)`: the level marker
moves one level deeper and the Hilbert position steps to the chosen
quadrant. -/
theorem childCellId_shape {id : ℤ} {k q : ℕ} (h : ValidShape id k q) (hk : 1 ≤ k)
    (i : ℤ) (hi0 : 0 ≤ i) (hi3 : i ≤ 3) :
    ∃ q2 : ℕ, ValidShape (S2Cell.childCellId id i) (k - 1) q2 ∧
      (q2 : ℤ) = 4 * (q : ℤ) + 2 * i - 3 := by
  obtain ⟨hid, hq, hkle, hb⟩ := h
  obtain ⟨w, rfl⟩ : ∃ w, q = w + 1 := ⟨q - 1, by omega⟩
  have hlsb : lsb id = ((2 ^ (2 * k) : ℕ) : ℤ) := by
    rw [hid]
    exact lsb_of_shape _ _ hq
  have hshift : jsShiftRight (lsb id) 2 = ((2 ^ (2 * (k - 1)) : ℕ) : ℤ) := by
    rw [hlsb, jsShiftRight_natCast]
    congr 1
    rw [Nat.pow_div (by omega) (by norm_num)]
    congr 1
    omega
  have hC : 6 * 2 ^ 61 = 2 ^ (2 * k) * (6 * 2 ^ (61 - 2 * k)) :=
    six_two_pow_factor _ (by omega)
  have hqC : w + 1 < 6 * 2 ^ (61 - 2 * k) := by
    have hb' := hb
    rw [hC] at hb'
    exact Nat.lt_of_mul_lt_mul_left hb'
  have hzpow : ((2 : ℕ) ^ (2 * k)) = 2 ^ (2 * (k - 1)) * 4 := by
    rw [show 2 * k = 2 * (k - 1) + 2 by omega, pow_add]
    norm_num
  have hA : (0 : ℕ) < 2 ^ (2 * (k - 1)) := Nat.two_pow_pos _
  have hbig : ∀ q2 : ℕ, q2 < 4 * (w + 2) → 2 ^ (2 * (k - 1)) * q2 < 6 * 2 ^ 61 := by
    intro q2 hq2
    have h1 : 2 ^ (2 * (k - 1)) * q2 < 2 ^ (2 * (k - 1)) * (4 * (w + 2)) :=
      mul_lt_mul_of_pos_left hq2 hA
    have h2 : 2 ^ (2 * (k - 1)) * (4 * (w + 2)) = 2 ^ (2 * k) * (w + 2) := by
      rw [hzpow]
      ring
    have h3 : 2 ^ (2 * k) * (w + 2) ≤ 2 ^ (2 * k) * (6 * 2 ^ (61 - 2 * k)) :=
      mul_le_mul_left' (by omega) _
    omega
  have hmain : ∀ q2 : ℕ, (q2 : ℤ) = 4 * ((w : ℤ) + 1) + 2 * i - 3 →
      S2Cell.childCellId id i = ((2 ^ (2 * (k - 1)) * q2 : ℕ) : ℤ) := by
    intro q2 hq2
    unfold S2Cell.childCellId
    rw [hshift, hid]
    push_cast
    rw [show ((2 : ℤ) ^ (2 * k)) = 2 ^ (2 * (k - 1)) * 4 by
      rw [show 2 * k = 2 * (k - 1) + 2 by omega, pow_add]
      norm_num]
    have hq2' : (q2 : ℤ) = 4 * (w : ℤ) + 2 * i + 1 := by omega
    rw [hq2']
    ring
  interval_cases i
  · exact ⟨4 * w + 1, ⟨hmain _ (by push_cast; ring), by omega, by omega,
      hbig _ (by omega)⟩, by push_cast; omega⟩
  · exact ⟨4 * w + 3, ⟨hmain _ (by push_cast; ring), by omega, by omega,
      hbig _ (by omega)⟩, by push_cast; omega⟩
  · exact ⟨4 * w + 5, ⟨hmain _ (by push_cast; ring), by omega, by omega,
      hbig _ (by omega)⟩, by push_cast; omega⟩
  · exact ⟨4 * w + 7, ⟨hmain _ (by push_cast; ring), by omega, by omega,
      hbig _ (by omega)⟩, by push_cast; omega⟩

/-- The id produced by `getParent` on a non-root id of shape `(k, q)` has
shape `(k + 1, (q / 4) | 1)`: all bits below the new, shallower marker are
cleared and the marker bit is set. -/
theorem parentCellId_shape {id : ℤ} {k q : ℕ} (h : ValidShape id k q) (hk29 : k ≤ 29) :
    ∃ q2 : ℕ, ValidShape (S2Cell.parentCellId id) (k + 1) q2 ∧ q2 = (q / 4) ||| 1 := by
  obtain ⟨hid, hq, hkle, hb⟩ := h
  have hq0 : 0 < q := by omega
  have hlsb : lsb id = ((2 ^ (2 * k) : ℕ) : ℤ) := by
    rw [hid]
    exact lsb_of_shape _ _ hq
  have hL : jsShiftLeft (lsb id) 2 = ((2 ^ (2 * (k + 1)) : ℕ) : ℤ) := by
    rw [hlsb]
    unfold jsShiftLeft
    push_cast
    rw [show 2 * (k + 1) = 2 * k + 2 by omega, pow_add]
    norm_num
  have hLpow : ((2 : ℕ) ^ (2 * (k + 1))) = 2 ^ (2 * k) * 4 := by
    rw [show 2 * (k + 1) = 2 * k + 2 by omega, pow_add]
    norm_num
  have hNL : 2 ^ (2 * k) * q / 2 ^ (2 * (k + 1)) = q / 4 := by
    rw [hLpow, ← Nat.div_div_eq_div_mul, Nat.mul_div_cancel_left _ (Nat.two_pow_pos _)]
  have hAnd : jsAnd id (jsNot (jsShiftLeft (lsb id) 2) + 1) =
      ((2 ^ (2 * (k + 1)) * (q / 4) : ℕ) : ℤ) := by
    rw [hL, jsNot_add_one, hid, jsAnd_neg_natCast _ _ (Nat.two_pow_pos _)]
    congr 1
    rw [Nat.and_pow_two_sub_one_eq_mod]
    have hdm := Nat.div_add_mod (2 ^ (2 * k) * q) (2 ^ (2 * (k + 1)))
    rw [hNL] at hdm
    omega
  have hOr : S2Cell.parentCellId id = ((2 ^ (2 * (k + 1)) * ((q / 4) ||| 1) : ℕ) : ℤ) := by
    unfold S2Cell.parentCellId
    rw [hAnd, hL, jsOr_natCast]
    congr 1
    calc (2 ^ (2 * (k + 1)) * (q / 4)) ||| (2 ^ (2 * (k + 1)))
        = (2 ^ (2 * (k + 1)) * (q / 4)) ||| (2 ^ (2 * (k + 1)) * 1) := by rw [mul_one]
    _ = 2 ^ (2 * (k + 1)) * ((q / 4) ||| 1) := lor_two_pow_mul _ _ _
  have hC : 6 * 2 ^ 61 = 2 ^ (2 * k) * (6 * 2 ^ (61 - 2 * k)) :=
    six_two_pow_factor _ (by omega)
  have hqC : q < 6 * 2 ^ (61 - 2 * k) := by
    have hb' := hb
    rw [hC] at hb'
    exact Nat.lt_of_mul_lt_mul_left hb'
  have hCsplit : 6 * 2 ^ (61 - 2 * k) = 4 * (6 * 2 ^ (61 - 2 * (k + 1))) := by
    rw [show 61 - 2 * k = (61 - 2 * (k + 1)) + 2 by omega, pow_add]
    ring
  have hqC' : q / 4 < 6 * 2 ^ (61 - 2 * (k + 1)) := by omega
  have hC61 : 6 * 2 ^ 61 = 2 ^ (2 * (k + 1)) * (6 * 2 ^ (61 - 2 * (k + 1))) :=
    six_two_pow_factor _ (by omega)
  have hCeven : (6 * 2 ^ (61 - 2 * (k + 1))) % 2 = 0 := by
    have h2 : (2 : ℕ) ∣ 6 * 2 ^ (61 - 2 * (k + 1)) := ⟨3 * 2 ^ (61 - 2 * (k + 1)), by ring⟩
    omega
  refine ⟨(q / 4) ||| 1, ⟨hOr, ?_, by omega, ?_⟩, rfl⟩
  · rw [lor_one]
    split_ifs with hpp <;> omega
  · rw [lor_one]
    have hlt : ∀ q2 : ℕ, q2 < 6 * 2 ^ (61 - 2 * (k + 1)) →
        2 ^ (2 * (k + 1)) * q2 < 6 * 2 ^ 61 := by
      intro q2 hq2
      have h1 : 2 ^ (2 * (k + 1)) * q2 < 2 ^ (2 * (k + 1)) * (6 * 2 ^ (61 - 2 * (k + 1))) :=
        mul_lt_mul_of_pos_left hq2 (Nat.two_pow_pos _)
      omega
    split_ifs with hpp
    · exact hlt _ (by omega)
    · exact hlt _ (by omega)

/-- Round trip at the id level: stepping to any child and back up recovers
the original id. -/
theorem parentCellId_childCellId {id : ℤ} {k q : ℕ} (h : ValidShape id k q) (hk : 1 ≤ k)
    (i : ℤ) (hi0 : 0 ≤ i) (hi3 : i ≤ 3) :
    S2Cell.parentCellId (S2Cell.childCellId id i) = id := by
  have hqodd : q % 2 = 1 := h.2.1
  have hkle : k ≤ 30 := h.2.2.1
  obtain ⟨q2, hch, hq2⟩ := childCellId_shape h hk i hi0 hi3
  obtain ⟨q3, hpar, hq3⟩ := parentCellId_shape hch (by omega)
  have hq3q : q3 = q := by
    rw [hq3, lor_one]
    interval_cases i <;> (split_ifs with hpp <;> omega)
  rw [hpar.1, h.1]
  congr 1
  rw [hq3q, show k - 1 + 1 = k by omega]

/-! ### Claim theorems -/

/-- Claim C1 (code bug, evaluation at the failing input).  The claim states
that `tokenToIdentifier (identifierToToken id) = id` for every valid id, and
that id 0 maps to the token "X".  The second part holds, but the round trip
fails at the valid id 1: `getTokenFromId` renders hex without leading zeros
("1"), and `getIdFromToken` right-pads to 16 digits, so the round trip
returns `2 ^ 60 = 1152921504606846976` instead of 1. -/
theorem claimC1_roundtrip_fails_at_one :
    S2Cell.isValidId 1 = true ∧
    S2Cell.getTokenFromId 1 = "1" ∧
    S2Cell.getIdFromToken (S2Cell.getTokenFromId 1) = 1152921504606846976 ∧
    S2Cell.getTokenFromId 0 = "X" := by
  refine ⟨by decide, by decide, by decide, by decide⟩

/-- Claim C9 (confirmed): `FaceUVtoXYZ` returns exactly the six fixed
per-face vectors `(1,u,v)`, `(-u,1,v)`, `(-u,-v,1)`, `(-1,-v,-u)`,
`(v,-1,-u)`, `(v,u,-1)` for faces 0–5. -/
theorem claimC9_faceUVtoXYZ_formulas (u v : ℚ) :
    FaceUVtoXYZ 0 u v = (1, u, v) ∧
    FaceUVtoXYZ 1 u v = (-u, 1, v) ∧
    FaceUVtoXYZ 2 u v = (-u, -v, 1) ∧
    FaceUVtoXYZ 3 u v = (-1, -v, -u) ∧
    FaceUVtoXYZ 4 u v = (v, -1, -u) ∧
    FaceUVtoXYZ 5 u v = (v, u, -1) :=
  ⟨rfl, rfl, rfl, rfl, rfl, rfl⟩

set_option maxRecDepth 1000000 in
/-- Claim C7 (code bug, evaluation at the failing input).  The claim states
that both lookup tables end up with 1024 populated entries.  Because the
generator reads the flat array `S2PosToOrientationMask` where `S2PosToIJ`
was intended, every child quadrant offset is 0, so the packed ij value is 0
at every leaf and the forward table is written only at keys
`(0 << 2) + orientation ∈ {0, 1, 2, 3}`.  Key 4 (ij = 1, orientation 0),
which the claim requires to be populated, is a hole, while the inverse table
is populated there (it does receive all 1024 keys). -/
theorem claimC7_forward_table_underpopulated :
    builtLookupState.lookupPositions 4 = none ∧
    (builtLookupState.lookupIJ 4).isSome = true ∧
    builtLookupState.lookupPositions 0 = some 1020 ∧
    builtLookupState.lookupPositions 3 = some 1023 := by
  refine ⟨by decide, by decide, by decide, by decide⟩

set_option maxRecDepth 1000000 in
/-- Claim C6 (code bug, evaluation at the failing input).  The claim states
`delta = 2` exactly when `((I ^ (id >> 2)) & 1) = 1` (parity of I versus
bit 2 of the id).  At the valid id 1040 (level 28, face 0) the decoder
yields I = 8 and bit 2 of the id is 0, so the claim's parity condition is 0
and the claimed center is `(0, 2 * 8, 2 * 0)`; the code instead evaluates
`i ^ (Number(cellId >> 2n) & 1) = 8 ^ 0 = 8` as a truth value and takes
`delta = 2`, returning `(0, 18, 2)`. -/
theorem claimC6_delta_diverges_at_1040 :
    S2Cell.isValidId 1040 = true ∧
    S2Cell.getLevel 1040 = .ok 28 ∧
    getFaceIJOrientation 1040 = (8, 0, 0) ∧
    ((8 ^^^ (jsShiftRight 1040 2).toNat) &&& 1) = 0 ∧
    getFaceSiTi 1040 = .ok (0, 18, 2) := by
  refine ⟨by decide, by decide, by decide, by decide, by decide⟩

/-- Claim C8 (confirmed): on a constructed cell, `getChild` at level 30
fails with the child-of-leaf `DeveloperError` (the specification's
InvalidHierarchyOperation) for every in-range index, `getParent` at level 0
fails with the parent-of-root error, and `getChild` with index 4 or -1 fails
with the index-range error (the specification's InvalidArgument).  The
operations are pure functions that return only the error in these cases, so
the cell value itself is untouched. -/
theorem claimC8_error_cases (id : ℤ) (c : S2Cell) (_hc : S2Cell.construct id = .ok c) :
    (c.level = 30 → ∀ i : ℤ, 0 ≤ i → i ≤ 3 →
      c.getChild i = .error (.developerError "cannot get child of leaf cell.")) ∧
    (c.level = 0 →
      c.getParent = .error (.developerError "cannot get parent of root cell.")) ∧
    (c.getChild 4 = .error (.developerError "child index must be in the range [0-3].")) ∧
    (c.getChild (-1) = .error (.developerError "child index must be in the range [0-3].")) := by
  refine ⟨?_, ?_, ?_, ?_⟩
  · intro hlvl i hi0 hi3
    unfold S2Cell.getChild
    rw [if_neg (by omega), if_pos hlvl]
  · intro hlvl
    unfold S2Cell.getParent
    rw [if_pos hlvl]
  · unfold S2Cell.getChild
    rw [if_pos (by norm_num)]
  · unfold S2Cell.getChild
    rw [if_pos (by norm_num)]

/-- Witness for C8 at concrete cells: the leaf cell with id 1 (level 30) and
the face-0 root cell with id `2 ^ 60` (level 0). -/
theorem claimC8_error_cases_witness :
    S2Cell.getChild ⟨1, 30⟩ 0 = .error (.developerError "cannot get child of leaf cell.") ∧
    S2Cell.getParent ⟨1152921504606846976, 0⟩ =
      .error (.developerError "cannot get parent of root cell.") ∧
    S2Cell.getChild ⟨1, 30⟩ 4 = .error (.developerError "child index must be in the range [0-3].") ∧
    S2Cell.getChild ⟨1, 30⟩ (-1) =
      .error (.developerError "child index must be in the range [0-3].") := by
  have h1 := claimC8_error_cases 1 ⟨1, 30⟩ (by decide)
  have h2 := claimC8_error_cases 1152921504606846976 ⟨1152921504606846976, 0⟩ (by decide)
  exact ⟨h1.1 rfl 0 (by norm_num) (by norm_num), h2.2.1 rfl, h1.2.2.1, h1.2.2.2⟩

/-- Evaluation of `getChild` on a constructed non-leaf cell: the guards pass
and the constructor runs on the child id. -/
theorem getChild_ok {id : ℤ} {k q : ℕ} (hs : ValidShape id k q) (hk : 1 ≤ k)
    (i : ℤ) (hi0 : 0 ≤ i) (hi3 : i ≤ 3) :
    ∃ q2 : ℕ, ValidShape (S2Cell.childCellId id i) (k - 1) q2 ∧
      S2Cell.getChild ⟨id, 30 - (k : ℤ)⟩ i =
        .ok ⟨S2Cell.childCellId id i, 30 - ((k - 1 : ℕ) : ℤ)⟩ := by
  obtain ⟨q2, hch, hq2⟩ := childCellId_shape hs hk i hi0 hi3
  refine ⟨q2, hch, ?_⟩
  unfold S2Cell.getChild
  rw [if_neg (by omega)]
  have hkle : k ≤ 30 := hs.2.2.1
  rw [if_neg (by show ¬((30 : ℤ) - (k : ℕ) = 30); omega)]
  exact construct_of_shape hch

/-- Evaluation of `getParent` on a constructed non-root cell: the guard
passes and the constructor runs on the parent id. -/
theorem getParent_ok {id : ℤ} {k q : ℕ} (hs : ValidShape id k q) (hk : k ≤ 29) :
    ∃ q2 : ℕ, ValidShape (S2Cell.parentCellId id) (k + 1) q2 ∧
      S2Cell.getParent ⟨id, 30 - (k : ℤ)⟩ =
        .ok ⟨S2Cell.parentCellId id, 30 - ((k + 1 : ℕ) : ℤ)⟩ := by
  obtain ⟨q2, hpar, hq2⟩ := parentCellId_shape hs hk
  refine ⟨q2, hpar, ?_⟩
  unfold S2Cell.getParent
  rw [if_neg (by show ¬((30 : ℤ) - (k : ℕ) = 0); omega)]
  exact construct_of_shape hpar

/-- Claim C2 (confirmed): for every constructed cell `c` of level below 30
and every child index `i ∈ [0, 3]`, `getChild` succeeds, `getParent` on the
child succeeds, and the resulting cell carries exactly `c`'s identifier. -/
theorem claimC2_child_parent_roundtrip (id : ℤ) (c : S2Cell) (i : ℤ)
    (hc : S2Cell.construct id = .ok c) (hlevel : c.level < 30)
    (hi0 : 0 ≤ i) (hi3 : i ≤ 3) :
    ∃ ch p : S2Cell, c.getChild i = .ok ch ∧ ch.getParent = .ok p ∧
      p.cellId = c.cellId := by
  obtain ⟨k, q, hs, rfl⟩ := construct_ok_elim hc
  have hkle : k ≤ 30 := hs.2.2.1
  have hk1 : 1 ≤ k := by
    simp only [S2Cell.level] at hlevel
    omega
  obtain ⟨q2, hch, hcheval⟩ := getChild_ok hs hk1 i hi0 hi3
  obtain ⟨q3, hpar, hpareval'⟩ := getParent_ok hch (by omega)
  have hround := parentCellId_childCellId hs hk1 i hi0 hi3
  refine ⟨⟨S2Cell.childCellId id i, 30 - ((k - 1 : ℕ) : ℤ)⟩, _, hcheval, hpareval', ?_⟩
  simp only [S2Cell.cellId]
  exact hround

/-- Witness for C2 at the face-0 root cell (id `2 ^ 60`, level 0) with child
index 0. -/
theorem claimC2_child_parent_roundtrip_witness :
    ∃ ch p : S2Cell,
      S2Cell.getChild ⟨1152921504606846976, 0⟩ 0 = .ok ch ∧
      S2Cell.getParent ch = .ok p ∧
      p.cellId = (⟨1152921504606846976, 0⟩ : S2Cell).cellId :=
  claimC2_child_parent_roundtrip 1152921504606846976 ⟨1152921504606846976, 0⟩ 0
    (by decide) (by norm_num [S2Cell.level]) (by norm_num) (by norm_num)

/-- Claim C3 (confirmed): `isValidId` returns true exactly when the id is
positive, its face bits (the id shifted right by 61) are at most 5, and its
lowest set bit sits at a position `2k` with `k ≤ 30` — the positions carried
by the mask `0x1555555555555555`.  (Equivalently: it returns false when the
id is non-positive, false when the face bits exceed 5, false when the lowest
set bit misses the mask, and true otherwise.) -/
theorem claimC3_isValidId_characterisation (id : ℤ) :
    S2Cell.isValidId id = true ↔
      (0 < id ∧ jsShiftRight id S2PositionBits ≤ 5 ∧
        ∃ k, k ≤ 30 ∧ (2 ^ (2 * k) : ℤ) ∣ id ∧ ¬ (2 ^ (2 * k + 1) : ℤ) ∣ id) := by
  rw [isValidId_iff]
  constructor
  · rintro ⟨k, q, hid, hq, hk, hb⟩
    have hq0 : 0 < q := by omega
    have hN0 : 0 < 2 ^ (2 * k) * q := by positivity
    refine ⟨by rw [hid]; exact_mod_cast hN0, ?_, k, hk, ?_, ?_⟩
    · rw [hid, jsShiftRight_natCast]
      have h61 : S2PositionBits = 61 := rfl
      rw [h61]
      have hdiv : 2 ^ (2 * k) * q / 2 ^ 61 < 6 := by
        rw [Nat.div_lt_iff_lt_mul (show 0 < 2 ^ 61 by positivity)]
        omega
      exact_mod_cast Nat.lt_succ_iff.mp hdiv
    · rw [hid]
      have : (2 ^ (2 * k) : ℕ) ∣ 2 ^ (2 * k) * q := Dvd.intro q rfl
      exact_mod_cast Int.natCast_dvd_natCast.2 this
    · rw [hid]
      intro hdvd
      have hnat : (2 ^ (2 * k + 1) : ℕ) ∣ 2 ^ (2 * k) * q := by
        have := Int.natCast_dvd_natCast.1 (by exact_mod_cast hdvd)
        exact this
      obtain ⟨t, ht⟩ := hnat
      rw [pow_succ] at ht
      have hq2 : q = 2 * t := by
        have hmul : 2 ^ (2 * k) * q = 2 ^ (2 * k) * (2 * t) := by
          rw [ht]
          ring
        exact Nat.eq_of_mul_eq_mul_left (Nat.two_pow_pos (2 * k)) hmul
      omega
  · rintro ⟨hpos, hshift, k, hk, hdvd, hndvd⟩
    have hm : id = ((id.toNat : ℕ) : ℤ) := (Int.toNat_of_nonneg (by omega)).symm
    set m := id.toNat with hmdef
    have hdvdN : 2 ^ (2 * k) ∣ m := by
      have := hdvd
      rw [hm] at this
      exact_mod_cast Int.natCast_dvd_natCast.1 (by exact_mod_cast this)
    obtain ⟨q, hq⟩ := hdvdN
    have hqodd : q % 2 = 1 := by
      rcases Nat.even_or_odd q with he | ho
      · exfalso
        apply hndvd
        obtain ⟨t, ht⟩ := he
        rw [hm, hq, ht]
        have : 2 ^ (2 * k) * (t + t) = 2 ^ (2 * k + 1) * t := by
          rw [pow_succ]
          ring
        rw [this]
        exact_mod_cast Int.natCast_dvd_natCast.2 (Dvd.intro t rfl)
      · exact Nat.odd_iff.1 ho
    have hb : 2 ^ (2 * k) * q < 6 * 2 ^ 61 := by
      rw [hm, jsShiftRight_natCast] at hshift
      have h61 : S2PositionBits = 61 := rfl
      rw [h61] at hshift
      have : m / 2 ^ 61 ≤ 5 := by exact_mod_cast hshift
      have hmlt : m < 6 * 2 ^ 61 := by omega
      rw [← hq]
      exact hmlt
    exact ⟨k, q, by rw [hm, hq], hqodd, hk, hb⟩

/-- Claim C4 (confirmed): on a valid id whose lowest set bit is at position
`p`, `getLevel` returns `30 - p / 2`; the result always lies in `[0, 30]`;
position 60 gives level 0 and position 0 gives level 30. -/
theorem claimC4_getLevel_characterisation (id : ℤ) (h : S2Cell.isValidId id = true)
    (p : ℕ) (hdvd : (2 ^ p : ℤ) ∣ id) (hndvd : ¬ (2 ^ (p + 1) : ℤ) ∣ id) :
    S2Cell.getLevel id = .ok (30 - ((p / 2 : ℕ) : ℤ)) ∧
    (∀ l : ℤ, S2Cell.getLevel id = .ok l → 0 ≤ l ∧ l ≤ 30) ∧
    (p = 60 → S2Cell.getLevel id = .ok 0) ∧
    (p = 0 → S2Cell.getLevel id = .ok 30) := by
  obtain ⟨k, q, hs⟩ := (isValidId_iff id).1 h
  obtain ⟨hid, hq, hk, hb⟩ := hs
  have hq0 : 0 < q := by omega
  have hple : p ≤ 2 * k := by
    by_contra hgt
    have hdvdN : 2 ^ p ∣ 2 ^ (2 * k) * q := by
      rw [hid] at hdvd
      exact_mod_cast Int.natCast_dvd_natCast.1 (by exact_mod_cast hdvd)
    have hsplit : (2 : ℕ) ^ p = 2 ^ (2 * k) * 2 ^ (p - 2 * k) := by
      rw [← pow_add]
      congr 1
      omega
    rw [hsplit] at hdvdN
    have hq2 : 2 ^ (p - 2 * k) ∣ q :=
      (mul_dvd_mul_iff_left (a := (2 : ℕ) ^ (2 * k)) (by positivity)).1 hdvdN
    have h2q : 2 ∣ q := dvd_trans (dvd_pow_self 2 (by omega)) hq2
    omega
  have hpge : 2 * k ≤ p := by
    by_contra hlt
    apply hndvd
    rw [hid]
    have hdl : (2 : ℕ) ^ (p + 1) ∣ 2 ^ (2 * k) := Nat.pow_dvd_pow 2 (by omega)
    have : (2 : ℕ) ^ (p + 1) ∣ 2 ^ (2 * k) * q := dvd_mul_of_dvd_left hdl q
    exact_mod_cast Int.natCast_dvd_natCast.2 this
  have hpk : p = 2 * k := by omega
  have hlvl : S2Cell.getLevel id = .ok (30 - (k : ℤ)) :=
    getLevel_of_shape ⟨hid, hq, hk, hb⟩
  have hpk2 : p / 2 = k := by omega
  refine ⟨by rw [hlvl, hpk2], ?_, ?_, ?_⟩
  · intro l hl
    rw [hlvl] at hl
    have : l = 30 - (k : ℤ) := (Except.ok.inj hl).symm
    omega
  · intro hp60
    have : k = 30 := by omega
    rw [hlvl, this]
    norm_num
  · intro hp0
    have : k = 0 := by omega
    rw [hlvl, this]
    norm_num

/-- Witness for C4 at the face-0 root cell id `2 ^ 60` (lowest set bit at
position 60, level 0). -/
theorem claimC4_getLevel_characterisation_witness :
    S2Cell.getLevel 1152921504606846976 = .ok 0 :=
  (claimC4_getLevel_characterisation 1152921504606846976 (by decide) 60
    (by decide) (by decide)).2.2.1 rfl

/-- Claim C5 (confirmed): on a constructed cell, `getParent` (when the level
is positive) yields an id whose `getLevel` is one less, and `getChild 0`
(when the level is below 30) yields an id whose `getLevel` is one more. -/
theorem claimC5_navigation_levels (id : ℤ) (c : S2Cell)
    (hc : S2Cell.construct id = .ok c) :
    (0 < c.level → ∃ p : S2Cell, c.getParent = .ok p ∧
      S2Cell.getLevel p.cellId = .ok (c.level - 1)) ∧
    (c.level < 30 → ∃ ch : S2Cell, c.getChild 0 = .ok ch ∧
      S2Cell.getLevel ch.cellId = .ok (c.level + 1)) := by
  obtain ⟨k, q, hs, rfl⟩ := construct_ok_elim hc
  have hkle : k ≤ 30 := hs.2.2.1
  constructor
  · intro hlvl
    simp only [S2Cell.level] at hlvl
    have hk29 : k ≤ 29 := by omega
    obtain ⟨q2, hpar, hpareval⟩ := getParent_ok hs hk29
    refine ⟨_, hpareval, ?_⟩
    simp only [S2Cell.cellId, S2Cell.level]
    rw [getLevel_of_shape hpar]
    congr 1
    push_cast
    ring
  · intro hlvl
    simp only [S2Cell.level] at hlvl
    have hk1 : 1 ≤ k := by omega
    obtain ⟨q2, hch, hcheval⟩ := getChild_ok hs hk1 0 (by norm_num) (by norm_num)
    refine ⟨_, hcheval, ?_⟩
    simp only [S2Cell.cellId, S2Cell.level]
    rw [getLevel_of_shape hch]
    congr 1
    push_cast [Nat.cast_sub hk1]
    ring

/-- Witness for C5 at the level-1 cell with id `2 ^ 58`. -/
theorem claimC5_navigation_levels_witness :
    (∃ p : S2Cell, S2Cell.getParent ⟨288230376151711744, 1⟩ = .ok p ∧
      S2Cell.getLevel p.cellId = .ok 0) ∧
    (∃ ch : S2Cell, S2Cell.getChild ⟨288230376151711744, 1⟩ 0 = .ok ch ∧
      S2Cell.getLevel ch.cellId = .ok 2) := by
  have h := claimC5_navigation_levels 288230376151711744 ⟨288230376151711744, 1⟩
    (by decide)
  constructor
  · obtain ⟨p, hp1, hp2⟩ := h.1 (by norm_num [S2Cell.level])
    exact ⟨p, hp1, by simpa using hp2⟩
  · obtain ⟨ch, hc1, hc2⟩ := h.2 (by norm_num [S2Cell.level])
    exact ⟨ch, hc1, by simpa using hc2⟩

/-- Claim C10 (confirmed): navigation preserves validity — on a constructed
cell, the id built by `getChild` (index in `[0, 3]`, level below 30) and the
id built by `getParent` (level above 0) again satisfy `isValidId`, so the
constructor re-validation inside both operations succeeds. -/
theorem claimC10_navigation_preserves_validity (id : ℤ) (c : S2Cell)
    (hc : S2Cell.construct id = .ok c) :
    (∀ i : ℤ, 0 ≤ i → i ≤ 3 → c.level < 30 →
      ∃ ch : S2Cell, c.getChild i = .ok ch ∧ S2Cell.isValidId ch.cellId = true) ∧
    (0 < c.level →
      ∃ p : S2Cell, c.getParent = .ok p ∧ S2Cell.isValidId p.cellId = true) := by
  obtain ⟨k, q, hs, rfl⟩ := construct_ok_elim hc
  have hkle : k ≤ 30 := hs.2.2.1
  constructor
  · intro i hi0 hi3 hlvl
    simp only [S2Cell.level] at hlvl
    have hk1 : 1 ≤ k := by omega
    obtain ⟨q2, hch, hcheval⟩ := getChild_ok hs hk1 i hi0 hi3
    refine ⟨_, hcheval, ?_⟩
    simp only [S2Cell.cellId]
    exact (isValidId_iff _).2 ⟨_, _, hch⟩
  · intro hlvl
    simp only [S2Cell.level] at hlvl
    have hk29 : k ≤ 29 := by omega
    obtain ⟨q2, hpar, hpareval⟩ := getParent_ok hs hk29
    refine ⟨_, hpareval, ?_⟩
    simp only [S2Cell.cellId]
    exact (isValidId_iff _).2 ⟨_, _, hpar⟩

/-- Witness for C10 at the level-1 cell with id `2 ^ 58`. -/
theorem claimC10_navigation_preserves_validity_witness :
    (∃ ch : S2Cell, S2Cell.getChild ⟨288230376151711744, 1⟩ 0 = .ok ch ∧
      S2Cell.isValidId ch.cellId = true) ∧
    (∃ p : S2Cell, S2Cell.getParent ⟨288230376151711744, 1⟩ = .ok p ∧
      S2Cell.isValidId p.cellId = true) := by
  have h := claimC10_navigation_preserves_validity 288230376151711744
    ⟨288230376151711744, 1⟩ (by decide)
  exact ⟨h.1 0 (by norm_num) (by norm_num) (by norm_num [S2Cell.level]),
    h.2 (by norm_num [S2Cell.level])⟩
